import Mathlib

/-!
Verification of `sbpl_geometry_utils`: the joint-space path interpolator
(`src/src/interpolation.cpp`) and the generic path shortcutter
(`sbpl::shortcut::ShortcutPath` template in the headers).

C++ `double` values are modelled as exact rationals; the constant `M_PI`
is the exact value of the IEEE-754 double nearest to pi, which is the
constant the C++ code actually computes with.  Output parameters that the
C++ functions may or may not mutate are modelled by passing their prior
contents in and returning their final contents.
-/

/-- The exact rational value of the C `M_PI` double constant. -/
def M_PI : ℚ := 884279719003555 / 281474976710656

/-- Mathematical floor of a rational, via flooring integer division. -/
def ratFloor (q : ℚ) : ℤ := Int.fdiv q.num q.den

/-- Mathematical ceiling of a rational. -/
def ratCeil (q : ℚ) : ℤ := -(ratFloor (-q))

/-- Modelled from the spec: `sbpl::utils::NormalizeAngle` (declared in
`src/include/sbpl_geometry_utils/utils.h`; its definition, `utils.cpp`, is
not among the sources).  Spec 4.1: "shifts angle by integer multiples of
(max-min) into [min,max)". -/
def NormalizeAngle (angle amin amax : ℚ) : ℚ :=
  angle - (amax - amin) * (ratFloor ((angle - amin) / (amax - amin)) : ℚ)

/-- Modelled from the spec: `sbpl::utils::ShortestAngleDiff` (declared in
`src/include/sbpl_geometry_utils/utils.h`; definition not among the
sources).  Spec 4.1: "signed difference in [-pi,pi] representing rotation
from b to a along the minor arc; positive = counter-clockwise". -/
def ShortestAngleDiff (a1 a2 : ℚ) : ℚ :=
  NormalizeAngle (a1 - a2) (-M_PI) M_PI

/-- Modelled from the spec: `sbpl::utils::Sign` (declared in
`src/include/sbpl_geometry_utils/utils.h`; definition not among the
sources).  Spec 4.1: "Sign(x): -1, 0, or 1". -/
def Sign (x : ℚ) : ℤ :=
  if 0 < x then 1 else if x < 0 then -1 else 0

/-! ## `NormalizeAnglesIntoRange` (src/src/interpolation.cpp, lines 17-41) -/

/-- The third loop of `NormalizeAnglesIntoRange`: normalize each angle in
turn and stop (returning `false`) at the first angle that still falls
outside its `[min,max]` bounds.  On failure the already-processed angles
(including the failing one) keep their normalized values and the rest of
the vector is untouched, exactly as with the in-place C++ mutation. -/
def NormalizeLoop : List ℚ → List ℚ → List ℚ → Bool × List ℚ
  | a :: as, lo :: los, hi :: his =>
    let min_angle_norm := NormalizeAngle lo 0 (2 * M_PI)
    let a' := NormalizeAngle a lo min_angle_norm
    if a' < lo ∨ hi < a' then (false, a' :: as)
    else
      let pr := NormalizeLoop as los his
      (pr.1, a' :: pr.2)
  | a, _, _ => (true, a)

/-- `NormalizeAnglesIntoRange` from src/src/interpolation.cpp: size check,
then the min<=max check over all joints, then the normalize-and-check
loop.  The returned list is the final state of the in-out `angles`
parameter. -/
def NormalizeAnglesIntoRange (angles min_limits max_limits : List ℚ) :
    Bool × List ℚ :=
  if min_limits.length = angles.length ∧ max_limits.length = angles.length then
    if (min_limits.zip max_limits).any (fun p => decide (p.2 < p.1)) then
      (false, angles)
    else NormalizeLoop angles min_limits max_limits
  else (false, angles)

/-! ## `InterpolatePath` (src/src/interpolation.cpp, lines 73-174) -/

/-- Travel direction for one joint (src lines 101-115). -/
def TravelDir (s e lo hi : ℚ) (cont : Bool) : ℤ :=
  if cont then Sign (ShortestAngleDiff e s)
  else if hi < s + ShortestAngleDiff e s ∨ s + ShortestAngleDiff e s < lo then
    -Sign (ShortestAngleDiff e s)
  else Sign (ShortestAngleDiff e s)

/-- Travel directions for all joints. -/
def TravelDirs : List ℚ → List ℚ → List ℚ → List ℚ → List Bool → List ℤ
  | s :: ss, e :: es, lo :: los, hi :: his, c :: cs =>
    TravelDir s e lo hi c :: TravelDirs ss es los his cs
  | _, _, _, _, _ => []

/-- Per-joint iteration count (src lines 119-138): one step when the
endpoint gap is below `eps` or at most one increment, otherwise the
ceiling of the travel distance over the increment, where the travel
distance is the long way round whenever the direct move would land outside
the `[lo,hi]` bounds. -/
def JointIters (s e lo hi inc eps : ℚ) : ℤ :=
  if |e - s| < eps then 1
  else if |e - s| ≤ inc then 1
  else
    ratCeil ((if hi < s + ShortestAngleDiff e s ∨ s + ShortestAngleDiff e s < lo then
        2 * M_PI - |ShortestAngleDiff e s|
      else |ShortestAngleDiff e s|) / inc)

/-- `max_iterations` (src lines 117-141): the maximum of the per-joint
iteration counts and 0. -/
def MaxIterations : List ℚ → List ℚ → List ℚ → List ℚ → List ℚ → ℚ → ℤ
  | s :: ss, e :: es, lo :: los, hi :: his, i :: js, eps =>
    max (JointIters s e lo hi i eps) (MaxIterations ss es los his js eps)
  | _, _, _, _, _, _ => 0

/-- One joint's move inside the interpolation loop (src lines 149-166):
either the final snap by `ShortestAngleDiff(curr, end)` when that
difference is smaller than the increment, or one increment along the
travel direction, followed by the single-wrap back into `[lo,hi]`. -/
def StepJoint (curr e lo hi inc : ℚ) (dir : ℤ) : ℚ :=
  let anglediff := ShortestAngleDiff curr e
  let c1 := if |anglediff| < inc then curr + anglediff else curr + (dir : ℚ) * inc
  let c2 := if hi < c1 then c1 - 2 * M_PI else c1
  if c2 < lo then c2 + 2 * M_PI else c2

/-- One iteration of the interpolation loop over all joints. -/
def StepConfig : List ℚ → List ℚ → List ℚ → List ℚ → List ℚ → List ℤ → List ℚ
  | c :: cs, e :: es, lo :: los, hi :: his, i :: js, d :: ds =>
    StepJoint c e lo hi i d :: StepConfig cs es los his js ds
  | _, _, _, _, _, _ => []

/-- The interpolation loop (src lines 146-171): run `n` iterations, each
appending the updated configuration to the path. -/
def InterpLoop (e lo hi inc : List ℚ) (dirs : List ℤ) :
    Nat → List ℚ → List (List ℚ)
  | 0, _ => []
  | Nat.succ n, curr =>
    let next := StepConfig curr e lo hi inc dirs
    next :: InterpLoop e lo hi inc dirs n next

/-- `InterpolatePath` (src lines 73-174).  `path0` is the prior contents
of the caller's output parameter, which the function clears on entry; the
returned pair is the C++ return value together with the final contents of
that output parameter. -/
def InterpolatePath (start endv lo hi inc : List ℚ) (cont : List Bool)
    (eps : ℚ) (path0 : List (List ℚ)) : Bool × List (List ℚ) :=
  let _ := path0
  let rs := NormalizeAnglesIntoRange start lo hi
  let re := NormalizeAnglesIntoRange endv lo hi
  if endv.length = start.length ∧ inc.length = start.length ∧
      lo.length = start.length ∧ hi.length = start.length ∧
      cont.length = start.length then
    if rs.1 then
      if re.1 then
        (true, rs.2 ::
          InterpLoop re.2 lo hi inc (TravelDirs rs.2 re.2 lo hi cont)
            (MaxIterations rs.2 re.2 lo hi inc eps).toNat rs.2)
      else (false, [])
    else (false, [])
  else (false, [])

/-! ## Spec-side step-count and direction formulas (spec 4.2, steps 1-3).

These follow the wording of the spec/claims: the travel distance is the
short-arc magnitude if the short arc stays inside the joint's limits and
otherwise the full turn minus the short-arc magnitude, where "the short
arc stays inside the limits" means the whole scalar segment from the start
to start+diff lies inside `[lo,hi]`. -/

/-- Whether the whole segment from `s` to `s + d` stays inside `[lo,hi]`. -/
def StaysInside (s d lo hi : ℚ) : Prop :=
  lo ≤ min s (s + d) ∧ max s (s + d) ≤ hi

instance (s d lo hi : ℚ) : Decidable (StaysInside s d lo hi) :=
  inferInstanceAs (Decidable (_ ∧ _))

/-- Spec-side per-joint step contribution: one step when the endpoint gap
is below epsilon or no larger than the increment, otherwise
ceil(distance/increment) with the distance picked by `StaysInside`. -/
def SpecJointSteps (s e lo hi inc eps : ℚ) : ℤ :=
  if |e - s| < eps ∨ |e - s| ≤ inc then 1
  else
    ratCeil ((if StaysInside s (ShortestAngleDiff e s) lo hi then
        |ShortestAngleDiff e s|
      else 2 * M_PI - |ShortestAngleDiff e s|) / inc)

/-- Spec-side total step count: the maximum over all joints of the
per-joint contributions. -/
def SpecStepCount : List ℚ → List ℚ → List ℚ → List ℚ → List ℚ → ℚ → ℤ
  | s :: ss, e :: es, lo :: los, hi :: his, i :: js, eps =>
    max (SpecJointSteps s e lo hi i eps) (SpecStepCount ss es los his js eps)
  | _, _, _, _, _, _ => 0

/-- Spec-side travel direction: the sign of the signed shortest angular
difference, reversed for a bounded joint exactly when the short arc would
leave `[lo,hi]`. -/
def SpecTravelDir (s e lo hi : ℚ) (cont : Bool) : ℤ :=
  if cont then Sign (ShortestAngleDiff e s)
  else if StaysInside s (ShortestAngleDiff e s) lo hi then
    Sign (ShortestAngleDiff e s)
  else -Sign (ShortestAngleDiff e s)

/-- Spec-side travel directions for all joints. -/
def SpecTravelDirs : List ℚ → List ℚ → List ℚ → List ℚ → List Bool → List ℤ
  | s :: ss, e :: es, lo :: los, hi :: his, c :: cs =>
    SpecTravelDir s e lo hi c :: SpecTravelDirs ss es los his cs
  | _, _, _, _, _ => []

/-! ## `ShortcutPath` (sbpl::shortcut, header template)

The template is generic over the point type, the cost type, the generator
collection and the comparator; the embedding keeps that generality.  The
iterators `curr_start`, `last_end` and `curr_end` are modelled by indices
into the original path (`last_end` always sits one before `curr_end`, as
maintained by the C++ loop).  Since the loop need not terminate, it is
modelled with explicit fuel: `none` means the loop has not finished within
the given fuel. -/

/-- A path generator: `generate_path` may propose a replacement sub-path
and its cost between two points. -/
structure PathGen (P : Type) (C : Type) where
  generate_path : P → P → Option (List P × C)

/-- The generator scan of one window (header lines 131-142): each
generator in turn may improve the best candidate.  The triple is
`(cost_improved, best_cost, best_path)`. -/
def GenSearch {P C : Type} [Add C] :
    List (PathGen P C) → P → P → Bool × C × List P → C → (C → C → Bool) →
    Bool × C × List P
  | [], _, _, best, _, _ => best
  | g :: gs, a, b, best, extra, leq =>
    match g.generate_path a b with
    | some (p, c) =>
      if leq c (best.2.1 + extra) then GenSearch gs a b (true, c, p) extra leq
      else GenSearch gs a b best extra leq
    | none => GenSearch gs a b best extra leq

/-- Commit helper (header lines 165-168 and 181-184): drop the result's
last point when the result is nonempty, then append the best path. -/
def DedupAppend {P : Type} (result best : List P) : List P :=
  (if result.isEmpty then result else result.dropLast) ++ best

/-- The loop state of `ShortcutPath`: window start and end indices, the
committed result, and the current best candidate sub-path and cost. -/
structure SCState (P C : Type) where
  cs : Nat
  ce : Nat
  result : List P
  best_path : List P
  best_cost : C

/-- The main loop of `ShortcutPath` (header lines 126-184), with fuel.
When the window's end has reached the path's end the final commit is
performed; otherwise one round of generator search either grows the
window's end (improvement) or commits the best candidate and restarts the
window at its last point (no improvement). -/
def scLoop {P C : Type} [Inhabited P] [Inhabited C] [Add C] [Sub C]
    (path : List P) (accum : List C) (gens : List (PathGen P C))
    (granularity : Nat) (leq : C → C → Bool) :
    Nat → SCState P C → Option (List P)
  | fuel, st =>
    if st.ce = path.length then some (DedupAppend st.result st.best_path)
    else
      match fuel with
      | 0 => none
      | Nat.succ f =>
        let res := GenSearch gens (path.getD st.cs default)
          (path.getD st.ce default) (false, st.best_cost, st.best_path)
          (accum.getD st.ce default - accum.getD (st.ce - 1) default) leq
        if res.1 then
          let dist := path.length - st.ce
          let ce' := if dist = 1 then path.length
            else if dist < granularity then st.ce + (dist - 1)
            else st.ce + granularity
          scLoop path accum gens granularity leq f
            { st with ce := ce', best_cost := res.2.1, best_path := res.2.2 }
        else
          let result' := DedupAppend st.result st.best_path
          let cs' := st.ce - 1
          scLoop path accum gens granularity leq f
            { cs := cs', ce := st.ce, result := result',
              best_path := [path.getD cs' default, path.getD st.ce default],
              best_cost := accum.getD st.ce default - accum.getD cs' default }

/-- `ShortcutPath` (header lines 77-188).  `shortcut_path0` is the prior
contents of the caller's output parameter; the result pairs the C++ return
value with the final contents of that parameter.  `none` means the loop
did not finish within `fuel` rounds. -/
def ShortcutPath {P C : Type} [Inhabited P] [Inhabited C] [Add C] [Sub C]
    [Zero C] (orig_path : List P) (orig_path_costs : List C)
    (path_generators : List (PathGen P C)) (window granularity : Nat)
    (leq : C → C → Bool) (shortcut_path0 : List P) (fuel : Nat) :
    Option (Bool × List P) :=
  let _ := window
  if orig_path.length ≠ orig_path_costs.length + 1 then
    some (false, shortcut_path0)
  else if orig_path.length < 2 then some (true, shortcut_path0)
  else
    let accum := List.scanl (fun a c => a + c) 0 orig_path_costs
    match scLoop orig_path accum path_generators granularity leq fuel
        { cs := 0, ce := 1, result := [],
          best_path := [orig_path.getD 0 default, orig_path.getD 1 default],
          best_cost := accum.getD 1 default - accum.getD 0 default } with
    | none => none
    | some res => some (true, res)

/-- Pointwise containment of a joint vector in its `[lo,hi]` bounds. -/
def InRange : List ℚ → List ℚ → List ℚ → Prop
  | [], _, _ => True
  | a :: as, lo :: los, hi :: his => (lo ≤ a ∧ a ≤ hi) ∧ InRange as los his
  | _ :: _, _, _ => False

/-! ## Helper lemmas -/

theorem interpLoop_length (e lo hi inc : List ℚ) (dirs : List ℤ) :
    ∀ (n : Nat) (curr : List ℚ), (InterpLoop e lo hi inc dirs n curr).length = n := by
  intro n
  induction n with
  | zero => intro curr; rfl
  | succ m ih => intro curr; simp only [InterpLoop, List.length_cons, ih]

theorem normalizeLoop_inRange :
    ∀ (a lo hi : List ℚ), lo.length = a.length → hi.length = a.length →
      (NormalizeLoop a lo hi).1 = true → InRange (NormalizeLoop a lo hi).2 lo hi := by
  intro a
  induction a with
  | nil => intro lo hi _ _ _; trivial
  | cons x xs ih =>
    intro lo hi hlo hhi h
    match lo, hi with
    | l :: ls, u :: us =>
      simp only [NormalizeLoop] at h ⊢
      by_cases hb : NormalizeAngle x l (NormalizeAngle l 0 (2 * M_PI)) < l ∨
          u < NormalizeAngle x l (NormalizeAngle l 0 (2 * M_PI))
      · rw [if_pos hb] at h
        exact absurd h (by simp)
      · rw [if_neg hb] at h ⊢
        push_neg at hb
        refine ⟨⟨hb.1, hb.2⟩, ?_⟩
        exact ih ls us (by simpa using hlo) (by simpa using hhi) h

theorem normalize_inRange (a lo hi : List ℚ)
    (h : (NormalizeAnglesIntoRange a lo hi).1 = true) :
    InRange (NormalizeAnglesIntoRange a lo hi).2 lo hi := by
  simp only [NormalizeAnglesIntoRange] at h ⊢
  by_cases hl : lo.length = a.length ∧ hi.length = a.length
  · rw [if_pos hl] at h ⊢
    by_cases ha : (lo.zip hi).any (fun p => decide (p.2 < p.1)) = true
    · rw [if_pos ha] at h
      exact absurd h (by simp)
    · rw [if_neg ha] at h ⊢
      exact normalizeLoop_inRange a lo hi hl.1 hl.2 h
  · rw [if_neg hl] at h
    exact absurd h (by simp)

theorem staysInside_iff (s d lo hi : ℚ) (h1 : lo ≤ s) (h2 : s ≤ hi) :
    StaysInside s d lo hi ↔ ¬(hi < s + d ∨ s + d < lo) := by
  unfold StaysInside
  rcases le_total 0 d with hd | hd
  · rw [min_eq_left (by linarith), max_eq_right (by linarith)]
    constructor
    · rintro ⟨_, hb⟩ (hc | hc) <;> linarith
    · intro hc
      push_neg at hc
      exact ⟨h1, hc.1⟩
  · rw [min_eq_right (by linarith), max_eq_left (by linarith)]
    constructor
    · rintro ⟨ha, _⟩ (hc | hc) <;> linarith
    · intro hc
      push_neg at hc
      exact ⟨hc.2, h2⟩

theorem scLoop_no_gens {P C : Type} [Inhabited P] [Inhabited C] [Add C] [Sub C]
    (path : List P) (accum : List C) (granularity : Nat) (leq : C → C → Bool) :
    ∀ (fuel : Nat) (st : SCState P C), st.ce < path.length →
      scLoop path accum [] granularity leq fuel st = none := by
  intro fuel
  induction fuel with
  | zero =>
    intro st h
    rw [scLoop, if_neg (Nat.ne_of_lt h)]
  | succ f ih =>
    intro st h
    rw [scLoop, if_neg (Nat.ne_of_lt h)]
    simp only [GenSearch]
    exact ih _ h

/-! ## Claim theorems -/

section
attribute [local semireducible] Rat.add Rat.sub Rat.mul Rat.inv Rat.ofScientific

/-- C10: `InterpolatePath` clears the caller-supplied output path before
any validation, so whenever it returns failure the output path is the
empty sequence, regardless of its prior contents. -/
theorem InterpolatePath_failure_empties (start endv lo hi inc : List ℚ)
    (cont : List Bool) (eps : ℚ) (path0 : List (List ℚ))
    (h : (InterpolatePath start endv lo hi inc cont eps path0).1 = false) :
    (InterpolatePath start endv lo hi inc cont eps path0).2 = [] := by
  simp only [InterpolatePath] at h ⊢
  split_ifs at h ⊢ <;> simp_all

/-- Witness for C10 at a concrete failing call (dimension mismatch) with
nonempty prior output contents. -/
theorem InterpolatePath_failure_empties_witness :
    ((InterpolatePath [0] [] [] [] [] [] 1 [[7]]).1 = false) ∧
    (InterpolatePath [0] [] [] [] [] [] 1 [[7]]).2 = [] :=
  ⟨by decide, InterpolatePath_failure_empties [0] [] [] [] [] [] 1 [[7]] (by decide)⟩

/-- C7 counterexample: on a dimension mismatch `InterpolatePath` returns
failure but DOES mutate the output path parameter, clearing it: with prior
contents `[[7]]` the output comes back empty, not `[[7]]`. -/
theorem InterpolatePath_dim_mismatch_mutates :
    (InterpolatePath [0] [] [] [] [] [] 1 [[7]]).1 = false ∧
    (InterpolatePath [0] [] [] [] [] [] 1 [[7]]).2 ≠ [[7]] := by decide

/-- C7 (amended): whenever the six input vectors do not all share the same
dimension, `InterpolatePath` returns failure and the output path parameter
is left cleared (empty), regardless of its prior contents. -/
theorem InterpolatePath_dim_mismatch_clears (start endv lo hi inc : List ℚ)
    (cont : List Bool) (eps : ℚ) (path0 : List (List ℚ))
    (h : ¬(endv.length = start.length ∧ inc.length = start.length ∧
      lo.length = start.length ∧ hi.length = start.length ∧
      cont.length = start.length)) :
    InterpolatePath start endv lo hi inc cont eps path0 = (false, []) := by
  simp only [InterpolatePath]
  rw [if_neg h]

/-- Witness for the amended C7 at a concrete mismatched call. -/
theorem InterpolatePath_dim_mismatch_clears_witness :
    InterpolatePath [0] [] [] [] [] [] 2 [[9]] = (false, []) :=
  InterpolatePath_dim_mismatch_clears [0] [] [] [] [] [] 2 [[9]] (by decide)

/-- C9: when `NormalizeAnglesIntoRange` fails because the three input
vectors differ in length or because some min limit exceeds the
corresponding max limit, the angles vector is returned exactly as passed
in (mutation only happens after these two checks pass). -/
theorem NormalizeAnglesIntoRange_early_failure_preserves
    (angles lo hi : List ℚ)
    (h : ¬(lo.length = angles.length ∧ hi.length = angles.length) ∨
      ∃ p ∈ lo.zip hi, p.2 < p.1) :
    NormalizeAnglesIntoRange angles lo hi = (false, angles) := by
  simp only [NormalizeAnglesIntoRange]
  rcases h with h | h
  · rw [if_neg h]
  · by_cases hl : lo.length = angles.length ∧ hi.length = angles.length
    · rw [if_pos hl, if_pos ?_]
      simp only [List.any_eq_true, decide_eq_true_eq]
      exact h
    · rw [if_neg hl]

/-- Witness for C9: mismatched lengths leave the angles untouched. -/
theorem NormalizeAnglesIntoRange_early_failure_preserves_witness :
    NormalizeAnglesIntoRange [0] [1] [0, 2] = (false, [0]) :=
  NormalizeAnglesIntoRange_early_failure_preserves [0] [1] [0, 2]
    (Or.inl (by decide))

/-- C8: whenever the number of segment costs does not equal the path
length minus one, `ShortcutPath` returns failure and the output path
parameter keeps its prior contents. -/
theorem ShortcutPath_cost_mismatch_fails {P C : Type} [Inhabited P]
    [Inhabited C] [Add C] [Sub C] [Zero C] (orig_path : List P)
    (costs : List C) (gens : List (PathGen P C)) (window granularity : Nat)
    (leq : C → C → Bool) (out0 : List P) (fuel : Nat)
    (h : orig_path.length ≠ costs.length + 1) :
    ShortcutPath orig_path costs gens window granularity leq out0 fuel =
      some (false, out0) := by
  simp only [ShortcutPath]
  rw [if_pos h]

/-- Witness for C8 at a concrete mismatched call. -/
theorem ShortcutPath_cost_mismatch_fails_witness :
    ShortcutPath [(1 : ℚ)] [(2 : ℚ)] ([] : List (PathGen ℚ ℚ)) 0 1
      (fun a b => decide (a ≤ b)) [(3 : ℚ)] 5 = some (false, [(3 : ℚ)]) :=
  ShortcutPath_cost_mismatch_fails [(1 : ℚ)] [(2 : ℚ)] [] 0 1
    (fun a b => decide (a ≤ b)) [(3 : ℚ)] 5 (by decide)

/-- C4 counterexample: on a 1-point path with matching (empty) costs,
`ShortcutPath` returns success but never writes the output parameter, so
the output equals its prior contents `[7]`, not the input path `[5]`. -/
theorem ShortcutPath_trivial_ignores_input :
    ShortcutPath [(5 : ℚ)] ([] : List ℚ) ([] : List (PathGen ℚ ℚ)) 1 1
      (fun a b => decide (a ≤ b)) [(7 : ℚ)] 3 = some (true, [(7 : ℚ)]) ∧
    ([(7 : ℚ)] : List ℚ) ≠ [(5 : ℚ)] := by decide

/-- C4 (amended): for every input path of length less than 2 with a
matching cost series, `ShortcutPath` returns success and leaves the output
path parameter unmodified (equal to its prior contents, not necessarily to
the input path). -/
theorem ShortcutPath_trivial_keeps_output {P C : Type} [Inhabited P]
    [Inhabited C] [Add C] [Sub C] [Zero C] (orig_path : List P)
    (costs : List C) (gens : List (PathGen P C)) (window granularity : Nat)
    (leq : C → C → Bool) (out0 : List P) (fuel : Nat)
    (h1 : orig_path.length < 2) (h2 : orig_path.length = costs.length + 1) :
    ShortcutPath orig_path costs gens window granularity leq out0 fuel =
      some (true, out0) := by
  simp only [ShortcutPath]
  rw [if_neg (not_not_intro h2), if_pos h1]

/-- Witness for the amended C4 at a concrete 1-point call. -/
theorem ShortcutPath_trivial_keeps_output_witness :
    ShortcutPath [(9 : ℚ)] ([] : List ℚ) ([] : List (PathGen ℚ ℚ)) 2 2
      (fun a b => decide (a ≤ b)) [(4 : ℚ)] 1 = some (true, [(4 : ℚ)]) :=
  ShortcutPath_trivial_keeps_output [(9 : ℚ)] [] [] 2 2
    (fun a b => decide (a ≤ b)) [(4 : ℚ)] 1 (by decide) (by decide)

/-- C3: with an empty generator collection and a path of length at least 2
(with matching costs), `ShortcutPath` never returns at all: the loop never
advances the window end when no generator improves the candidate, so no
amount of fuel makes it terminate.  The claim's promised behaviour
(success with the unmodified original path) is therefore unreachable. -/
theorem ShortcutPath_empty_generators_never_returns {P C : Type}
    [Inhabited P] [Inhabited C] [Add C] [Sub C] [Zero C]
    (orig_path : List P) (costs : List C) (window granularity : Nat)
    (leq : C → C → Bool) (out0 : List P) (fuel : Nat)
    (h2 : 2 ≤ orig_path.length) (hc : orig_path.length = costs.length + 1) :
    ShortcutPath orig_path costs [] window granularity leq out0 fuel =
      none := by
  simp only [ShortcutPath]
  rw [if_neg (not_not_intro hc), if_neg (by omega)]
  rw [scLoop_no_gens _ _ granularity leq fuel _ (by omega : 1 < orig_path.length)]

/-- Witness for C3 at a concrete 2-point call with some concrete fuel. -/
theorem ShortcutPath_empty_generators_never_returns_witness :
    (2 ≤ ([(0 : ℚ), 1] : List ℚ).length) ∧
    ShortcutPath [(0 : ℚ), 1] [(1 : ℚ)] ([] : List (PathGen ℚ ℚ)) 3 2
      (fun a b => decide (a ≤ b)) [] 9 = none :=
  ⟨by decide, ShortcutPath_empty_generators_never_returns [(0 : ℚ), 1]
    [(1 : ℚ)] 3 2 (fun a b => decide (a ≤ b)) [] 9 (by decide) (by decide)⟩

end

theorem jointIters_eq_spec (s e lo hi i eps : ℚ) (h1 : lo ≤ s) (h2 : s ≤ hi) :
    JointIters s e lo hi i eps = SpecJointSteps s e lo hi i eps := by
  have hiff := staysInside_iff s (ShortestAngleDiff e s) lo hi h1 h2
  unfold JointIters SpecJointSteps
  by_cases ha : |e - s| < eps
  · rw [if_pos ha, if_pos (Or.inl ha)]
  · by_cases hb : |e - s| ≤ i
    · rw [if_neg ha, if_pos hb, if_pos (Or.inr hb)]
    · rw [if_neg ha, if_neg hb,
        if_neg (show ¬(|e - s| < eps ∨ |e - s| ≤ i) from fun h => h.elim ha hb)]
      by_cases hc : hi < s + ShortestAngleDiff e s ∨ s + ShortestAngleDiff e s < lo
      · rw [if_pos hc, if_neg (fun hst => (hiff.mp hst) hc)]
      · rw [if_neg hc, if_pos (hiff.mpr hc)]

theorem maxIterations_eq_spec :
    ∀ (s e lo hi i : List ℚ) (eps : ℚ), InRange s lo hi →
      MaxIterations s e lo hi i eps = SpecStepCount s e lo hi i eps := by
  intro s
  induction s with
  | nil =>
    intro e lo hi i eps _
    rfl
  | cons x xs ih =>
    intro e lo hi i eps hr
    match lo, hi with
    | [], _ => exact absurd hr (by simp [InRange])
    | _ :: _, [] => exact absurd hr (by simp [InRange])
    | l :: ls, u :: us =>
      have hr' : (l ≤ x ∧ x ≤ u) ∧ InRange xs ls us := hr
      match e, i with
      | [], _ => rfl
      | _ :: _, [] => rfl
      | ev :: es, iv :: js =>
        simp only [MaxIterations, SpecStepCount]
        rw [jointIters_eq_spec x ev l u iv eps hr'.1.1 hr'.1.2,
          ih es ls us js eps hr'.2]

theorem travelDir_eq_spec (s e lo hi : ℚ) (c : Bool) (h1 : lo ≤ s)
    (h2 : s ≤ hi) : TravelDir s e lo hi c = SpecTravelDir s e lo hi c := by
  have hiff := staysInside_iff s (ShortestAngleDiff e s) lo hi h1 h2
  unfold TravelDir SpecTravelDir
  cases c with
  | true => rfl
  | false =>
    simp only [Bool.false_eq_true, if_false]
    by_cases hc : hi < s + ShortestAngleDiff e s ∨ s + ShortestAngleDiff e s < lo
    · rw [if_pos hc, if_neg (fun hst => (hiff.mp hst) hc)]
    · rw [if_neg hc, if_pos (hiff.mpr hc)]

theorem travelDirs_eq_spec :
    ∀ (s e lo hi : List ℚ) (cont : List Bool), InRange s lo hi →
      TravelDirs s e lo hi cont = SpecTravelDirs s e lo hi cont := by
  intro s
  induction s with
  | nil =>
    intro e lo hi cont _
    rfl
  | cons x xs ih =>
    intro e lo hi cont hr
    match lo, hi with
    | [], _ => exact absurd hr (by simp [InRange])
    | _ :: _, [] => exact absurd hr (by simp [InRange])
    | l :: ls, u :: us =>
      have hr' : (l ≤ x ∧ x ≤ u) ∧ InRange xs ls us := hr
      match e, cont with
      | [], _ => rfl
      | _ :: _, [] => rfl
      | ev :: es, cv :: cs =>
        simp only [TravelDirs, SpecTravelDirs]
        rw [travelDir_eq_spec x ev l u cv hr'.1.1 hr'.1.2,
          ih es ls us cs hr'.2]

section
attribute [local semireducible] Rat.add Rat.sub Rat.mul Rat.inv Rat.ofScientific

/-- C5: in every successful `InterpolatePath` call, the number of
interpolation steps (output length minus one) equals the maximum over all
joints of ceil(distance_j / increment_j), where distance_j is the
short-arc magnitude if the short arc stays inside the joint's limits and
otherwise the full turn minus the short-arc magnitude, except that a joint
whose endpoint gap is below epsilon or no larger than its increment
contributes exactly one step. -/
theorem InterpolatePath_step_count (start endv lo hi inc : List ℚ)
    (cont : List Bool) (eps : ℚ) (path0 : List (List ℚ))
    (h : (InterpolatePath start endv lo hi inc cont eps path0).1 = true) :
    (InterpolatePath start endv lo hi inc cont eps path0).2.length =
      (SpecStepCount (NormalizeAnglesIntoRange start lo hi).2
        (NormalizeAnglesIntoRange endv lo hi).2 lo hi inc eps).toNat + 1 := by
  simp only [InterpolatePath] at h ⊢
  split_ifs at h ⊢ with h1 h2 h3
  · simp only [List.length_cons, interpLoop_length]
    rw [maxIterations_eq_spec _ _ _ _ _ _ (normalize_inRange start lo hi h2)]

/-- Witness for C5 at a concrete successful call. -/
theorem InterpolatePath_step_count_witness :
    ((InterpolatePath [0] [3/10] [-M_PI] [M_PI] [1/2] [false]
      (1/1000000) []).1 = true) ∧
    (InterpolatePath [0] [3/10] [-M_PI] [M_PI] [1/2] [false]
      (1/1000000) []).2.length =
      (SpecStepCount (NormalizeAnglesIntoRange [0] [-M_PI] [M_PI]).2
        (NormalizeAnglesIntoRange [3/10] [-M_PI] [M_PI]).2
        [-M_PI] [M_PI] [1/2] (1/1000000)).toNat + 1 :=
  ⟨by decide, InterpolatePath_step_count [0] [3/10] [-M_PI] [M_PI] [1/2]
    [false] (1/1000000) [] (by decide)⟩

/-- C6: in every successful `InterpolatePath` call, each joint's travel
direction is the sign of the signed shortest angular difference from the
normalized start to the normalized end, except for a bounded joint whose
short arc would leave its `[min,max]` interval, which gets the opposite
sign. -/
theorem InterpolatePath_travel_dirs (start endv lo hi inc : List ℚ)
    (cont : List Bool) (eps : ℚ) (path0 : List (List ℚ))
    (h : (InterpolatePath start endv lo hi inc cont eps path0).1 = true) :
    TravelDirs (NormalizeAnglesIntoRange start lo hi).2
        (NormalizeAnglesIntoRange endv lo hi).2 lo hi cont =
      SpecTravelDirs (NormalizeAnglesIntoRange start lo hi).2
        (NormalizeAnglesIntoRange endv lo hi).2 lo hi cont := by
  simp only [InterpolatePath] at h
  split_ifs at h with h1 h2 h3
  · exact travelDirs_eq_spec _ _ _ _ _ (normalize_inRange start lo hi h2)

/-- Witness for C6 at a concrete successful call. -/
theorem InterpolatePath_travel_dirs_witness :
    ((InterpolatePath [M_PI - 3/5] [M_PI - 4/5] [-M_PI] [M_PI - 1/2] [3/10]
      [false] (1/1000000) []).1 = true) ∧
    TravelDirs (NormalizeAnglesIntoRange [M_PI - 3/5] [-M_PI] [M_PI - 1/2]).2
        (NormalizeAnglesIntoRange [M_PI - 4/5] [-M_PI] [M_PI - 1/2]).2
        [-M_PI] [M_PI - 1/2] [false] =
      SpecTravelDirs (NormalizeAnglesIntoRange [M_PI - 3/5] [-M_PI] [M_PI - 1/2]).2
        (NormalizeAnglesIntoRange [M_PI - 4/5] [-M_PI] [M_PI - 1/2]).2
        [-M_PI] [M_PI - 1/2] [false] :=
  ⟨by decide, InterpolatePath_travel_dirs [M_PI - 3/5] [M_PI - 4/5] [-M_PI]
    [M_PI - 1/2] [3/10] [false] (1/1000000) [] (by decide)⟩

/-- C1: the interpolation loop's final snap moves each joint by
`ShortestAngleDiff(curr, end)` -- the rotation from the end TO the current
value -- so the last configuration moves away from the target instead of
reaching it.  On this one-joint call (start 0, end 3/10, limits
[-pi, pi], increment 1/2, epsilon 1e-6) the code succeeds with the path
[[0], [-3/10]]: the last point is 3/5 away from the normalized end 3/10,
far beyond epsilon, refuting the claim that the last point equals the
normalized end within epsilon. -/
theorem InterpolatePath_endpoint_not_reached :
    InterpolatePath [0] [3/10] [-M_PI] [M_PI] [1/2] [false] (1/1000000) [] =
      (true, [[0], [-(3/10)]]) ∧
    (1/1000000 : ℚ) < |(-(3/10) : ℚ) - 3/10| := by decide

/-- C2: a step followed by the single +-2*pi re-wrap can leave a bounded
joint outside its limits when the limit range is narrower than a full
turn.  On this one-joint call (start pi - 3/5, end pi - 4/5, limits
[-pi, pi - 1/2], increment 3/10, epsilon 1e-6) the code succeeds and its
second configuration is pi - 2/5, which exceeds the max limit pi - 1/2,
refuting the claim that every joint value of every output configuration
lies within its limits. -/
theorem InterpolatePath_limit_violation :
    InterpolatePath [M_PI - 3/5] [M_PI - 4/5] [-M_PI] [M_PI - 1/2] [3/10]
      [false] (1/1000000) [] =
      (true, [[M_PI - 3/5], [M_PI - 2/5]]) ∧
    M_PI - 1/2 < M_PI - 2/5 := by decide

end
